import Mathlib

/-!
Shallow embedding of the core of `src/server.js` (resume_maker_backend):
the AI-response extractor `parseAIResponse`, the escape decoder
`decodeHTMLContent`, and the HTML-to-PDF renderer `convertHTMLtoPDF`.

Strings are modelled as `List Char` at the algorithmic level (with `String`
wrappers at the API level).  JavaScript regular-expression behaviour is
embedded operationally: the three regexes of the source are simple enough
that their leftmost-match / lazy-quantifier semantics can be written as
direct recursive scanners.
-/

/-- Character class of JavaScript's regex `\s` and of `String.prototype.trim`
(WhiteSpace plus LineTerminator): ASCII whitespace, NBSP, BOM, the Unicode
space separators and the line/paragraph separators. -/
def jsWs (c : Char) : Bool :=
  c.toNat = 0x20 || c.toNat = 0x9 || c.toNat = 0xa || c.toNat = 0xd ||
  c.toNat = 0xb || c.toNat = 0xc || c.toNat = 0xa0 || c.toNat = 0x1680 ||
  (0x2000 ≤ c.toNat && c.toNat ≤ 0x200a) ||
  c.toNat = 0x2028 || c.toNat = 0x2029 || c.toNat = 0x202f ||
  c.toNat = 0x205f || c.toNat = 0x3000 || c.toNat = 0xfeff

/-- Drop the maximal leading run of `jsWs` characters. -/
def skipWs : List Char → List Char
  | [] => []
  | c :: rest => if jsWs c then skipWs rest else c :: rest

/-- Length of the maximal leading run of `jsWs` characters (what a greedy
`\s*` consumes when the next regex atom is not itself whitespace). -/
def wsRunLen : List Char → Nat
  | [] => 0
  | c :: rest => if jsWs c then wsRunLen rest + 1 else 0

/-- JavaScript `String.prototype.trim`. -/
def jsTrim (cs : List Char) : List Char :=
  ((skipWs ((skipWs cs).reverse)).reverse)

/-- Three backticks, the fence delimiter. -/
def ticks : List Char := ['\x60', '\x60', '\x60']

/-- Length of the match if the regex `/```TAG\s*|\s*```/` matches at the head
of `cs` (JavaScript tries the first alternative, then the second, at each
position; both `\s*` are effectively deterministic because the atom that
follows each is never a whitespace character). -/
def fenceMatchAt (tag : List Char) (cs : List Char) : Option Nat :=
  if (ticks ++ tag).isPrefixOf cs then
    some ((ticks ++ tag).length + wsRunLen (cs.drop (ticks ++ tag).length))
  else
    let w := wsRunLen cs
    if ticks.isPrefixOf (cs.drop w) then some (w + 3) else none

/-- Fuelled global-replace-by-empty for the fence regex: scan left to right,
removing each match and resuming after it.  Every match consumes at least one
character, so `fuel = cs.length` always suffices. -/
def fenceScanF (tag : List Char) : Nat → List Char → List Char
  | 0, s => s
  | _ + 1, [] => []
  | fuel + 1, c :: rest =>
    match fenceMatchAt tag (c :: rest) with
    | some k => fenceScanF tag fuel (rest.drop (k - 1))
    | none => c :: fenceScanF tag fuel rest

/-- `s.replace(/```TAG\s*|\s*```/g, '')`. -/
def fenceStrip (tag : List Char) (cs : List Char) : List Char :=
  fenceScanF tag cs.length cs

def jsonTag : List Char := ['j', 's', 'o', 'n']

def htmlTag : List Char := ['h', 't', 'm', 'l']

/-- The response-cleaning step of `parseAIResponse`:
`aiResponse.replace(/```json\s*|\s*```/g, '').trim()`, followed by the
defensive `startsWith('```') && endsWith('```')` slice. -/
def cleanedResponse (cs : List Char) : List Char :=
  let c := jsTrim (fenceStrip jsonTag cs)
  if ticks.isPrefixOf c ∧ ticks.isSuffixOf c then
    jsTrim ((c.take (c.length - 3)).drop 3)
  else c

/-!
JSON values and a model of JavaScript's `JSON.parse` (ECMA-404 grammar,
recursive descent).  Numbers keep their source lexeme; later keys of an
object shadow earlier ones, as in JavaScript, via `jsGet`.
-/

inductive Json where
  | null : Json
  | bool (b : Bool) : Json
  | num (lexeme : String) : Json
  | str (s : String) : Json
  | arr (elems : List Json) : Json
  | obj (fields : List (String × Json)) : Json

/-- JSON's own whitespace set (only these four, unlike regex `\s`). -/
def jWs (c : Char) : Bool :=
  c = ' ' || c = '\t' || c = '\n' || c = '\r'

def skipJWs : List Char → List Char
  | [] => []
  | c :: rest => if jWs c then skipJWs rest else c :: rest

def hexVal (c : Char) : Option Nat :=
  if '0' ≤ c ∧ c ≤ '9' then some (c.toNat - '0'.toNat)
  else if 'a' ≤ c ∧ c ≤ 'f' then some (c.toNat - 'a'.toNat + 10)
  else if 'A' ≤ c ∧ c ≤ 'F' then some (c.toNat - 'A'.toNat + 10)
  else none

/-- Body of a JSON string, entered just after the opening quote; returns the
decoded content and the remainder after the closing quote.  Unescaped control
characters are rejected, as `JSON.parse` does.  (`\uXXXX` escapes denoting
UTF-16 surrogate halves are rejected rather than paired; no claim exercises
them.) -/
def parseJStr : List Char → Option (List Char × List Char)
  | [] => none
  | '\x22' :: rest => some ([], rest)
  | '\\' :: '\x22' :: rest => (parseJStr rest).map (fun p => ('\x22' :: p.1, p.2))
  | '\\' :: '\\' :: rest => (parseJStr rest).map (fun p => ('\\' :: p.1, p.2))
  | '\\' :: '/' :: rest => (parseJStr rest).map (fun p => ('/' :: p.1, p.2))
  | '\\' :: 'b' :: rest => (parseJStr rest).map (fun p => ('\x08' :: p.1, p.2))
  | '\\' :: 'f' :: rest => (parseJStr rest).map (fun p => ('\x0c' :: p.1, p.2))
  | '\\' :: 'n' :: rest => (parseJStr rest).map (fun p => ('\n' :: p.1, p.2))
  | '\\' :: 'r' :: rest => (parseJStr rest).map (fun p => ('\r' :: p.1, p.2))
  | '\\' :: 't' :: rest => (parseJStr rest).map (fun p => ('\t' :: p.1, p.2))
  | '\\' :: 'u' :: h1 :: h2 :: h3 :: h4 :: rest =>
    match hexVal h1, hexVal h2, hexVal h3, hexVal h4 with
    | some a, some b, some c, some d =>
      let n := ((a * 16 + b) * 16 + c) * 16 + d
      if n < 0xd800 ∨ (0xdfff < n ∧ n < 0x110000) then
        (parseJStr rest).map (fun p => (Char.ofNat n :: p.1, p.2))
      else none
    | _, _, _, _ => none
  | '\\' :: _ => none
  | c :: rest =>
    if c.toNat < 0x20 then none
    else (parseJStr rest).map (fun p => (c :: p.1, p.2))

/-- Maximal leading run of decimal digits. -/
def takeDigits : List Char → List Char × List Char
  | [] => ([], [])
  | c :: rest =>
    if c.isDigit then
      let p := takeDigits rest
      (c :: p.1, p.2)
    else ([], c :: rest)

/-- JSON number grammar: `-? (0 | [1-9][0-9]*) frac? exp?`; returns the
lexeme and the remainder. -/
def parseJNum (cs : List Char) : Option (List Char × List Char) :=
  let sgn : List Char × List Char :=
    match cs with
    | '-' :: r => (['-'], r)
    | _ => ([], cs)
  let intPart : Option (List Char × List Char) :=
    match sgn.2 with
    | '0' :: r => some (['0'], r)
    | c :: r =>
      if c.isDigit then
        let p := takeDigits r
        some (c :: p.1, p.2)
      else none
    | [] => none
  match intPart with
  | none => none
  | some (ip, r1) =>
    let fracPart : Option (List Char × List Char) :=
      match r1 with
      | '.' :: r2 =>
        let p := takeDigits r2
        if p.1 = [] then none else some ('.' :: p.1, p.2)
      | _ => some ([], r1)
    match fracPart with
    | none => none
    | some (fp, r2) =>
      let expPart : Option (List Char × List Char) :=
        match r2 with
        | e :: r3 =>
          if e = 'e' ∨ e = 'E' then
            let sgn2 : List Char × List Char :=
              match r3 with
              | '+' :: r4 => (['+'], r4)
              | '-' :: r4 => (['-'], r4)
              | _ => ([], r3)
            let p := takeDigits sgn2.2
            if p.1 = [] then none else some (e :: sgn2.1 ++ p.1, p.2)
          else some ([], r2)
        | _ => some ([], r2)
      match expPart with
      | none => none
      | some (ep, r3) => some (sgn.1 ++ ip ++ fp ++ ep, r3)

mutual

/-- One JSON value (leading whitespace allowed), fuelled for nesting. -/
def parseJVal : Nat → List Char → Option (Json × List Char)
  | 0, _ => none
  | fuel + 1, cs =>
    match skipJWs cs with
    | 'n' :: 'u' :: 'l' :: 'l' :: r => some (Json.null, r)
    | 't' :: 'r' :: 'u' :: 'e' :: r => some (Json.bool true, r)
    | 'f' :: 'a' :: 'l' :: 's' :: 'e' :: r => some (Json.bool false, r)
    | '\x22' :: r => (parseJStr r).map (fun p => (Json.str (String.mk p.1), p.2))
    | '[' :: r =>
      match skipJWs r with
      | ']' :: r2 => some (Json.arr [], r2)
      | _ =>
        match parseJVal fuel r with
        | some (v, r1) => parseJArrT fuel r1 [v]
        | none => none
    | '\x7b' :: r =>
      match skipJWs r with
      | '\x7d' :: r2 => some (Json.obj [], r2)
      | '\x22' :: r2 =>
        match parseJStr r2 with
        | some (k, r3) =>
          match skipJWs r3 with
          | ':' :: r4 =>
            match parseJVal fuel r4 with
            | some (v, r5) => parseJObjT fuel r5 [(String.mk k, v)]
            | none => none
          | _ => none
        | none => none
      | _ => none
    | c :: r =>
      if c = '-' ∨ c.isDigit then
        (parseJNum (c :: r)).map (fun p => (Json.num (String.mk p.1), p.2))
      else none
    | [] => none

/-- Remaining elements of an array, after the first element. -/
def parseJArrT : Nat → List Char → List Json → Option (Json × List Char)
  | 0, _, _ => none
  | fuel + 1, cs, acc =>
    match skipJWs cs with
    | ',' :: r =>
      match parseJVal fuel r with
      | some (v, r1) => parseJArrT fuel r1 (acc ++ [v])
      | none => none
    | ']' :: r => some (Json.arr acc, r)
    | _ => none

/-- Remaining members of an object, after the first member. -/
def parseJObjT : Nat → List Char → List (String × Json) → Option (Json × List Char)
  | 0, _, _ => none
  | fuel + 1, cs, acc =>
    match skipJWs cs with
    | ',' :: r =>
      match skipJWs r with
      | '\x22' :: r2 =>
        match parseJStr r2 with
        | some (k, r3) =>
          match skipJWs r3 with
          | ':' :: r4 =>
            match parseJVal fuel r4 with
            | some (v, r5) => parseJObjT fuel r5 (acc ++ [(String.mk k, v)])
            | none => none
          | _ => none
        | none => none
      | _ => none
    | '\x7d' :: r => some (Json.obj acc, r)
    | _ => none

end

/-- `JSON.parse`: one value, trailing whitespace only.  The fuel only bounds
nesting and member counts; `2 * length + 2` is always sufficient because every
recursive descent consumes at least one character per two fuel units. -/
def jsonParse (cs : List Char) : Option Json :=
  match parseJVal (2 * cs.length + 2) cs with
  | some (v, r) => if skipJWs r = [] then some v else none
  | none => none

/-- JavaScript object property lookup on the result of `JSON.parse`: the last
occurrence of a duplicated key wins. -/
def jsGet (fields : List (String × Json)) (k : String) : Option Json :=
  match fields with
  | [] => none
  | (k', v) :: rest =>
    match jsGet rest k with
    | some x => some x
    | none => if k' = k then some v else none

/-- The `.htmlres` property access: defined for objects, `undefined` (here
`none`) for every other value.  (On `null` the access throws a `TypeError`,
which the surrounding `catch` turns into the same fall-through, so `none` is
also the faithful outcome there.) -/
def getHtmlres : Json → Option Json
  | Json.obj fields => jsGet fields "htmlres"
  | _ => none

/-- Whether the digits of a JSON number lexeme before any exponent are all
zero, i.e. whether the number denotes zero. -/
def numIsZero (lex : String) : Bool :=
  (lex.data.takeWhile (fun c => !(c = 'e' || c = 'E'))).all
    (fun c => !c.isDigit || c = '0')

/-- JavaScript truthiness of a parsed JSON value. -/
def Json.truthy : Json → Bool
  | Json.null => false
  | Json.bool b => b
  | Json.num lex => !numIsZero lex
  | Json.str s => if s = "" then false else true
  | Json.arr _ => true
  | Json.obj _ => true

/-- The trusted first stage of `parseAIResponse`: strict JSON parse of the
cleaned text, returning the `htmlres` field when it is present and truthy. -/
def jsonHtmlres (cs : List Char) : Option Json :=
  match jsonParse cs with
  | some v =>
    match getHtmlres v with
    | some x => if x.truthy then some x else none
    | none => none
  | none => none

/-!
The two fallback stages of `parseAIResponse`, which run on the ORIGINAL
response text (not the cleaned one):
the regex `/"htmlres"\s*:\s*"([\s\S]*?)"\s*}/` and the direct span search
`/<html[\s\S]*?<\/html>/i`.
-/

/-- The literal `"htmlres"` (with its quotes). -/
def htmlresPat : List Char := ['\x22', 'h', 't', 'm', 'l', 'r', 'e', 's', '\x22']

/-- Whether, after `\s*`, the next character is `}` — the tail `"\s*}` of the
regex, checked at a candidate closing quote. -/
def braceNext (cs : List Char) : Bool :=
  match skipWs cs with
  | [] => false
  | c :: _ => if c = '\x7d' then true else false

/-- The lazy group `([\s\S]*?)` followed by `"\s*}`: the shortest prefix whose
next character is a quote that `\s*}` can follow; backtracking otherwise pulls
the quote into the group.  `none` when no such closing exists to the end. -/
def lazyCap : List Char → Option (List Char)
  | [] => none
  | c :: rest =>
    if c = '\x22' ∧ braceNext rest = true then some []
    else (lazyCap rest).map (fun cap => c :: cap)

/-- Try the whole `htmlres` regex anchored at the head of `cs`: the literal
`"htmlres"`, then `\s*:` and `\s*"` (both deterministic since `:` and `"` are
not whitespace), then the lazy capture.  Returns the captured group. -/
def tryHtmlresAt (cs : List Char) : Option (List Char) :=
  if htmlresPat.isPrefixOf cs then
    match skipWs (cs.drop htmlresPat.length) with
    | [] => none
    | c :: r2 =>
      if c = ':' then
        match skipWs r2 with
        | [] => none
        | c2 :: r3 => if c2 = '\x22' then lazyCap r3 else none
      else none
  else none

/-- Leftmost-match search for the `htmlres` regex — `aiResponse.match(...)`
with the first capture group as result. -/
def scanHtmlres : List Char → Option (List Char)
  | [] => none
  | c :: rest =>
    match tryHtmlresAt (c :: rest) with
    | some cap => some cap
    | none => scanHtmlres rest

/-- Case-insensitive prefix test (the `/i` flag; simple `toLower` folding
suffices for the ASCII letters of the patterns involved). -/
def ciLeads : List Char → List Char → Bool
  | [], _ => true
  | _ :: _, [] => false
  | p :: ps, c :: cs => if p.toLower = c.toLower then ciLeads ps cs else false

def openPat : List Char := ['<', 'h', 't', 'm', 'l']

def closePat : List Char := ['<', '/', 'h', 't', 'm', 'l', '>']

/-- Index of the first (lazy `[\s\S]*?`) case-insensitive occurrence of
`</html>`. -/
def scanClose : List Char → Option Nat
  | [] => none
  | c :: rest =>
    if ciLeads closePat (c :: rest) = true then some 0
    else (scanClose rest).map (fun n => n + 1)

/-- Try `/<html[\s\S]*?<\/html>/i` anchored at the head of `cs`; the result is
`match[0]`, the original characters of the span, verbatim. -/
def tryHtmlAt (cs : List Char) : Option (List Char) :=
  if ciLeads openPat cs = true then
    match scanClose (cs.drop openPat.length) with
    | some k => some (cs.take (openPat.length + k + closePat.length))
    | none => none
  else none

/-- Leftmost-match search for the direct `<html ... </html>` span. -/
def scanHtml : List Char → Option (List Char)
  | [] => none
  | c :: rest =>
    match tryHtmlAt (c :: rest) with
    | some m => some m
    | none => scanHtml rest

/-- The two fallback stages in order, then the failure of `parseAIResponse`:
regex recovery, direct span search, or the thrown extraction error. -/
def fallbackExtract (aiResponse : String) : Except String Json :=
  match scanHtmlres aiResponse.data with
  | some cap => Except.ok (Json.str (String.mk cap))
  | none =>
    match scanHtml aiResponse.data with
    | some m => Except.ok (Json.str (String.mk m))
    | none => Except.error "Could not extract HTML content from AI response"

/-- `parseAIResponse` of `src/server.js`: clean the response, try the strict
JSON path (returning the raw `htmlres` value when truthy), otherwise fall back
to the regex and direct-span stages on the original text, otherwise throw. -/
def parseAIResponse (aiResponse : String) : Except String Json :=
  match jsonHtmlres (cleanedResponse aiResponse.data) with
  | some v => Except.ok v
  | none => fallbackExtract aiResponse

/-!
`decodeHTMLContent`: a fixed sequence of global literal replacements.
`String.prototype.replace` with a global literal pattern rewrites leftmost
non-overlapping occurrences, resuming after each replacement.
-/

/-- Fuelled global literal replace; each step consumes at least one source
character, so `fuel = s.length` suffices (when fuel runs out the remainder is
necessarily empty). -/
def replaceAllF : Nat → List Char → List Char → List Char → List Char
  | 0, _, _, s => s
  | _ + 1, _, _, [] => []
  | fuel + 1, pat, rep, c :: rest =>
    if pat.isPrefixOf (c :: rest) then
      rep ++ replaceAllF fuel pat rep (rest.drop (pat.length - 1))
    else c :: replaceAllF fuel pat rep rest

/-- `s.replace(/PAT/g, REP)` for a literal pattern `PAT`. -/
def replaceAll (pat rep s : List Char) : List Char :=
  replaceAllF s.length pat rep s

/-- The eleven replacements of `decodeHTMLContent`, in source order. -/
def decodeChain (cs : List Char) : List Char :=
  replaceAll ['&', '#', '3', '9', ';'] ['\x27']
    (replaceAll ['&', 'g', 't', ';'] ['>']
      (replaceAll ['&', 'l', 't', ';'] ['<']
        (replaceAll ['&', 'a', 'm', 'p', ';'] ['&']
          (replaceAll ['&', 'q', 'u', 'o', 't', ';'] ['\x22']
            (replaceAll ['\\', '\x27'] ['\x27']
              (replaceAll ['\\', '\\'] ['\\']
                (replaceAll ['\\', 'r'] ['\r']
                  (replaceAll ['\\', 't'] ['\t']
                    (replaceAll ['\\', '\x22'] ['\x22']
                      (replaceAll ['\\', 'n'] ['\n'] cs))))))))))

/-- `decodeHTMLContent` of `src/server.js`; the guard `if (!htmlContent)`
returns `''` for the empty string (the only falsy string). -/
def decodeHTMLContent (htmlContent : String) : String :=
  if htmlContent = "" then ""
  else String.mk (decodeChain htmlContent.data)

/-!
`convertHTMLtoPDF`: the Puppeteer-driven renderer, embedded as a function of
the HTML string and of an environment describing the outcomes of the four
effectful engine steps (`puppeteer.launch`, `browser.newPage`,
`page.setContent`, `page.pdf`).  The result records, besides the returned
buffer or thrown message, whether a browser instance was obtained and whether
it was closed (the `finally` block closes `browser` only when the `launch`
assignment happened), and the options object passed to `page.pdf` when that
call was reached.  The emitted buffer is modelled by its page count: per the
engine's `pageRanges` contract, a range pinned to `'1'` emits
`min layout 1` pages of a `layout`-page document.
-/

/-- The margin object of the `page.pdf` call. -/
structure PdfMargin where
  top : String
  right : String
  bottom : String
  left : String

/-- The options object of the `page.pdf` call. -/
structure PdfOptions where
  format : String
  printBackground : Bool
  margin : PdfMargin
  preferCSSPageSize : Bool
  pageRanges : String

/-- Outcomes of the engine steps for one render call, plus the engine's
layout: how many pages the laid-out document occupies. -/
structure BrowserEnv where
  launchOk : Bool
  launchErr : String
  newPageOk : Bool
  newPageErr : String
  setContentOk : Bool
  setContentErr : String
  pdfOk : Bool
  pdfErr : String
  layoutPages : String → Nat

/-- Pages emitted for a given layout under a `pageRanges` option. -/
def pagesForRange (layout : Nat) (ranges : String) : Nat :=
  if ranges = "1" then min layout 1 else layout

/-- Result of one `convertHTMLtoPDF` call. -/
structure RenderResult where
  result : Except String Nat
  launched : Bool
  closed : Bool
  pdfRequest : Option PdfOptions

/-- The content-cleaning inside the try block:
`htmlContent.trim()` then `.replace(/```html\s*|\s*```/g, '').trim()`. -/
def renderClean (htmlContent : String) : String :=
  String.mk (jsTrim (fenceStrip htmlTag (jsTrim htmlContent.data)))

/-- `convertHTMLtoPDF` of `src/server.js`.  The emptiness guard
`if (!htmlContent || htmlContent.trim().length === 0)` is equivalent to
`jsTrim htmlContent.data = []` (the empty string trims to itself); note it
tests the argument BEFORE the fence stripping of `renderClean`.  Every thrown
error is re-thrown by the catch block as
`'Failed to convert HTML to PDF: ' + error.message`. -/
def convertHTMLtoPDF (env : BrowserEnv) (htmlContent : String) : RenderResult :=
  if jsTrim htmlContent.data = [] then
    ⟨Except.error ("Failed to convert HTML to PDF: " ++ "HTML content is empty"),
      false, false, none⟩
  else
    let cleanHTML := renderClean htmlContent
    if env.launchOk then
      if env.newPageOk then
        if env.setContentOk then
          let opts : PdfOptions :=
            ⟨"A4", true, ⟨"0.5in", "0.5in", "0.5in", "0.5in"⟩, true, "1"⟩
          if env.pdfOk then
            ⟨Except.ok (pagesForRange (env.layoutPages cleanHTML) opts.pageRanges),
              true, true, some opts⟩
          else
            ⟨Except.error ("Failed to convert HTML to PDF: " ++ env.pdfErr),
              true, true, some opts⟩
        else
          ⟨Except.error ("Failed to convert HTML to PDF: " ++ env.setContentErr),
            true, true, none⟩
      else
        ⟨Except.error ("Failed to convert HTML to PDF: " ++ env.newPageErr),
          true, true, none⟩
    else
      ⟨Except.error ("Failed to convert HTML to PDF: " ++ env.launchErr),
        false, false, none⟩

/-- An environment in which every engine step succeeds and every layout fits
on one page. -/
def envOk : BrowserEnv :=
  ⟨true, "launch", true, "page", true, "content", true, "pdf", fun _ => 1⟩

/-- An environment in which every engine step succeeds but the layout of any
content overflows to three pages. -/
def envOverflow : BrowserEnv :=
  ⟨true, "launch", true, "page", true, "content", true, "pdf", fun _ => 3⟩

/-- Substring occurrence test (used only to state counterexamples). -/
def occursIn (pat : List Char) : List Char → Bool
  | [] => pat.isPrefixOf []
  | c :: rest => pat.isPrefixOf (c :: rest) || occursIn pat rest

/-!
Helper lemmas shared by the claim theorems.
-/

theorem isPrefixOf_append_self (p t : List Char) : p.isPrefixOf (p ++ t) = true := by
  induction p with
  | nil => simp [List.isPrefixOf]
  | cons a as ih => simp [List.isPrefixOf, ih]

theorem skipWs_append_ws (w t : List Char) (h : ∀ c ∈ w, jsWs c = true) :
    skipWs (w ++ t) = skipWs t := by
  induction w with
  | nil => rfl
  | cons c cs ih =>
    have hc : jsWs c = true := h c (List.mem_cons_self c cs)
    simp only [List.cons_append, skipWs, hc, if_true]
    exact ih (fun x hx => h x (List.mem_cons_of_mem c hx))

theorem skipWs_cons_not (c : Char) (t : List Char) (h : jsWs c = false) :
    skipWs (c :: t) = c :: t := by
  simp [skipWs, h]

theorem lazyCap_exact (v w d : List Char) (hv : '\x22' ∉ v)
    (hw : ∀ c ∈ w, jsWs c = true) :
    lazyCap (v ++ '\x22' :: (w ++ '\x7d' :: d)) = some v := by
  induction v with
  | nil =>
    have hb : braceNext (w ++ '\x7d' :: d) = true := by
      unfold braceNext
      rw [skipWs_append_ws w _ hw, skipWs_cons_not '\x7d' d (by decide)]
      rfl
    simp [lazyCap, hb]
  | cons c cs ih =>
    have hc : c ≠ '\x22' := fun h => hv (h ▸ List.mem_cons_self c cs)
    have ih2 := ih (fun hx => hv (List.mem_cons_of_mem c hx))
    rw [List.cons_append]
    simp only [lazyCap]
    rw [if_neg (fun h => hc h.1), ih2]
    rfl

theorem tryHtmlresAt_head_ne (x : Char) (t : List Char) (h : x ≠ '\x22') :
    tryHtmlresAt (x :: t) = none := by
  have hp : htmlresPat.isPrefixOf (x :: t) = false := by
    simp only [htmlresPat, List.isPrefixOf, Bool.and_eq_false_iff]
    left
    exact beq_eq_false_iff_ne.mpr (fun hh => h hh.symm)
  simp [tryHtmlresAt, hp]

theorem scanHtmlres_append_no_quote (a rest : List Char) (h : '\x22' ∉ a) :
    scanHtmlres (a ++ rest) = scanHtmlres rest := by
  induction a with
  | nil => rfl
  | cons x xs ih =>
    have hx : x ≠ '\x22' := fun hh => h (hh ▸ List.mem_cons_self x xs)
    rw [List.cons_append]
    simp only [scanHtmlres]
    rw [tryHtmlresAt_head_ne x (xs ++ rest) hx]
    exact ih (fun hc => h (List.mem_cons_of_mem x hc))

theorem tryHtmlresAt_at_pattern (w1 w2 tail : List Char)
    (h1 : ∀ c ∈ w1, jsWs c = true) (h2 : ∀ c ∈ w2, jsWs c = true) :
    tryHtmlresAt (htmlresPat ++ (w1 ++ ':' :: (w2 ++ '\x22' :: tail))) =
      lazyCap tail := by
  unfold tryHtmlresAt
  rw [if_pos (isPrefixOf_append_self htmlresPat _),
    List.drop_left htmlresPat _,
    skipWs_append_ws w1 _ h1, skipWs_cons_not ':' _ (by decide)]
  simp only [if_pos rfl]
  rw [skipWs_append_ws w2 _ h2, skipWs_cons_not '\x22' _ (by decide)]
  simp

theorem ciLeads_append (p : List Char) : ∀ o t : List Char,
    ciLeads p o = true → ciLeads p (o ++ t) = true := by
  induction p with
  | nil => intro o t _; rfl
  | cons a as ih =>
    intro o t h
    cases o with
    | nil => exact absurd h (by simp [ciLeads])
    | cons c cs =>
      simp only [ciLeads] at h ⊢
      by_cases hc : a.toLower = c.toLower
      · rw [if_pos hc] at h ⊢
        exact ih cs t h
      · rw [if_neg hc] at h
        exact absurd h (by simp)

theorem ciLeads_cons_head_ne (a : Char) (ps : List Char) (x : Char)
    (t : List Char) (h : x.toLower ≠ a.toLower) :
    ciLeads (a :: ps) (x :: t) = false := by
  unfold ciLeads
  rw [if_neg (fun hh => h hh.symm)]

theorem scanClose_at (l : List Char) (h : ciLeads closePat l = true) :
    scanClose l = some 0 := by
  cases l with
  | nil => exact absurd h (by simp [closePat, ciLeads])
  | cons c cs => simp [scanClose, h]

theorem scanClose_skip (m : List Char) (rest : List Char) (k : Nat)
    (hm : ∀ x ∈ m, x.toLower ≠ '<') (hr : scanClose rest = some k) :
    scanClose (m ++ rest) = some (m.length + k) := by
  induction m with
  | nil => simpa using hr
  | cons x xs ih =>
    have hx : x.toLower ≠ '<' := hm x (List.mem_cons_self x xs)
    have hx2 : ciLeads closePat (x :: (xs ++ rest)) = false := by
      have : x.toLower ≠ ('<').toLower := by
        intro hh; exact hx (by simpa using hh)
      exact ciLeads_cons_head_ne '<' _ x _ this
    have ih2 := ih (fun c hc => hm c (List.mem_cons_of_mem x hc))
    rw [List.cons_append]
    simp only [scanClose, hx2]
    rw [if_neg (by simp), ih2]
    simp [Nat.add_assoc, Nat.add_comm 1 k]

theorem scanHtml_skip (a rest : List Char)
    (ha : ∀ x ∈ a, x.toLower ≠ '<') :
    scanHtml (a ++ rest) = scanHtml rest := by
  induction a with
  | nil => rfl
  | cons x xs ih =>
    have hx : x.toLower ≠ '<' := ha x (List.mem_cons_self x xs)
    have hx2 : ciLeads openPat (x :: (xs ++ rest)) = false := by
      have : x.toLower ≠ ('<').toLower := by
        intro hh; exact hx (by simpa using hh)
      exact ciLeads_cons_head_ne '<' _ x _ this
    have hnone : tryHtmlAt (x :: (xs ++ rest)) = none := by
      unfold tryHtmlAt
      rw [if_neg (by simp [hx2])]
    rw [List.cons_append]
    simp only [scanHtml]
    rw [hnone]
    exact ih (fun c hc => ha c (List.mem_cons_of_mem x hc))

theorem replaceAllF_no_occ (p : Char) (pt rep : List Char) :
    ∀ (fuel : Nat) (s : List Char), p ∉ s →
      replaceAllF fuel (p :: pt) rep s = s := by
  intro fuel
  induction fuel with
  | zero => intro s _; rfl
  | succ n ih =>
    intro s hs
    cases s with
    | nil => rfl
    | cons c rest =>
      have hpc : p ≠ c := fun h => hs (h ▸ List.mem_cons_self c rest)
      have hpfx : (p :: pt).isPrefixOf (c :: rest) = false := by
        simp only [List.isPrefixOf, Bool.and_eq_false_iff]
        left
        exact beq_eq_false_iff_ne.mpr hpc
      simp only [replaceAllF, hpfx]
      rw [if_neg (by simp)]
      rw [ih rest (fun h => hs (List.mem_cons_of_mem c h))]

theorem replaceAll_no_occ (p : Char) (pt rep s : List Char) (h : p ∉ s) :
    replaceAll (p :: pt) rep s = s :=
  replaceAllF_no_occ p pt rep s.length s h

theorem string_mk_data (s : String) : String.mk s.data = s := rfl

theorem take_append_len (o t : List Char) (n : Nat) :
    (o ++ t).take (o.length + n) = o ++ t.take n := by
  induction o with
  | nil => simp
  | cons c cs ih => simp [List.take, ih, Nat.succ_add]

/-!
Claim theorems.
-/

/-- C1: whenever the cleaned (fence-stripped, trimmed) response parses as
valid JSON whose `htmlres` field is a non-empty string, `parseAIResponse`
returns exactly that field's value — the trusted JSON path wins, and neither
the regex nor the direct-`<html>`-span fallback is consulted, regardless of
any `<html>` substring elsewhere in the input. -/
theorem extract_json_primary (s : String) (j : Json) (h : String)
    (hparse : jsonParse (cleanedResponse s.data) = some j)
    (hfield : getHtmlres j = some (Json.str h))
    (hne : h ≠ "") :
    parseAIResponse s = Except.ok (Json.str h) := by
  unfold parseAIResponse jsonHtmlres
  simp only [hparse, hfield]
  simp [Json.truthy, hne]

/-- Witness for C1 at a concrete input whose JSON also contains an `<html>`
substring in an unrelated field. -/
theorem extract_json_primary_witness :
    parseAIResponse "\x7b\"htmlres\": \"<p>a</p>\", \"x\": \"<html>b</html>\"\x7d" =
      Except.ok (Json.str "<p>a</p>") :=
  extract_json_primary _
    (Json.obj [("htmlres", Json.str "<p>a</p>"), ("x", Json.str "<html>b</html>")])
    "<p>a</p>" (by rfl) (by rfl) (by decide)

/-- C9: when the JSON path, the regex extraction and the direct span search
all fail, `parseAIResponse` throws the extraction error; no partial result is
produced. -/
theorem extract_all_fail_error (s : String)
    (h1 : jsonHtmlres (cleanedResponse s.data) = none)
    (h2 : scanHtmlres s.data = none)
    (h3 : scanHtml s.data = none) :
    parseAIResponse s = Except.error "Could not extract HTML content from AI response" := by
  unfold parseAIResponse fallbackExtract
  rw [h1, h2, h3]

/-- Witness for C9 at a concrete unrecoverable input. -/
theorem extract_all_fail_error_witness :
    parseAIResponse "hello there" =
      Except.error "Could not extract HTML content from AI response" :=
  extract_all_fail_error "hello there" (by rfl) (by rfl) (by rfl)

/-- C10: when the cleaned response is valid JSON whose `htmlres` field is the
empty string, the JSON path does not return it (the code tests truthiness, not
presence) and `parseAIResponse` falls through to the fallback stages; on the
concrete input of the claim all fallbacks also fail, so the call throws the
extraction error instead of returning the empty string. -/
theorem extract_empty_field_falls_through (s : String) (j : Json)
    (hparse : jsonParse (cleanedResponse s.data) = some j)
    (hfield : getHtmlres j = some (Json.str "")) :
    parseAIResponse s = fallbackExtract s ∧
      parseAIResponse "\x7b\"htmlres\": \"\", \"other\": 1\x7d" =
        Except.error "Could not extract HTML content from AI response" := by
  constructor
  · unfold parseAIResponse jsonHtmlres
    simp only [hparse, hfield]
    simp [Json.truthy]
  · rfl

/-- Witness for C10 at the concrete input of the claim. -/
theorem extract_empty_field_falls_through_witness :
    parseAIResponse "\x7b\"htmlres\": \"\", \"other\": 1\x7d" =
        fallbackExtract "\x7b\"htmlres\": \"\", \"other\": 1\x7d" ∧
      parseAIResponse "\x7b\"htmlres\": \"\", \"other\": 1\x7d" =
        Except.error "Could not extract HTML content from AI response" :=
  extract_empty_field_falls_through _
    (Json.obj [("htmlres", Json.str ""), ("other", Json.num "1")])
    (by rfl) (by rfl)

/-- C8: on every execution of `convertHTMLtoPDF`, the browser instance is
closed before returning exactly when one was launched — every exit path
(success, content-load failure, generation failure, launch failure, empty
input) closes iff the launch assignment happened. -/
theorem render_browser_always_closed (env : BrowserEnv) (html : String) :
    (convertHTMLtoPDF env html).closed = (convertHTMLtoPDF env html).launched := by
  unfold convertHTMLtoPDF
  by_cases h0 : jsTrim html.data = []
  · simp [h0]
  · cases hl : env.launchOk <;> cases hn : env.newPageOk <;>
      cases hc : env.setContentOk <;> cases hp : env.pdfOk <;>
      simp [h0, hl, hn, hc, hp]

/-- C4 counterexample: the fence-markers-only input `"```html```"` cleans to
the empty string, yet the emptiness guard (which runs BEFORE fence stripping)
does not fire: the browser engine is launched and the call even succeeds,
contradicting the claim that such input fails before any resource is
acquired. -/
theorem render_empty_check_cex :
    renderClean "```html```" = "" ∧
      (convertHTMLtoPDF envOk "```html```").launched = true ∧
      (convertHTMLtoPDF envOk "```html```").result = Except.ok 1 := by
  exact ⟨rfl, rfl, rfl⟩

/-- C4 amended: inputs that are empty or whitespace-only after trimming (the
guard does not re-strip code fences) fail with the empty-content render error
before any engine step, with no launch and no close. -/
theorem render_empty_amended (env : BrowserEnv) (s : String)
    (h : jsTrim s.data = []) :
    convertHTMLtoPDF env s =
      ⟨Except.error "Failed to convert HTML to PDF: HTML content is empty",
        false, false, none⟩ := by
  unfold convertHTMLtoPDF
  rw [if_pos h]
  rfl

/-- Witness for the amended C4 at the whitespace-only input. -/
theorem render_empty_amended_witness :
    convertHTMLtoPDF envOk "   " =
      ⟨Except.error "Failed to convert HTML to PDF: HTML content is empty",
        false, false, none⟩ :=
  render_empty_amended envOk "   " (by rfl)

/-- C7: for every input that passes the emptiness guard, when the engine
steps preceding generation succeed, the options object passed to `page.pdf`
is exactly A4 format, background printing on, 0.5in margins on all four
sides, CSS page size preferred, and page range `'1'`; consequently (per the
engine's page-range contract) any layout of at least one page — in particular
an overflowing one — yields a buffer of exactly one page rather than a
failure or a multi-page document. -/
theorem render_pdf_request_onepage (env : BrowserEnv) (html : String)
    (hne : ¬jsTrim html.data = [])
    (hl : env.launchOk = true) (hn : env.newPageOk = true)
    (hc : env.setContentOk = true) :
    (convertHTMLtoPDF env html).pdfRequest =
        some ⟨"A4", true, ⟨"0.5in", "0.5in", "0.5in", "0.5in"⟩, true, "1"⟩ ∧
      (env.pdfOk = true → 1 ≤ env.layoutPages (renderClean html) →
        (convertHTMLtoPDF env html).result = Except.ok 1) := by
  constructor
  · unfold convertHTMLtoPDF
    rw [if_neg hne]
    cases hp : env.pdfOk <;> simp [hl, hn, hc, hp]
  · intro hp hlay
    unfold convertHTMLtoPDF
    rw [if_neg hne]
    simp only [hl, hn, hc, hp, if_true]
    unfold pagesForRange
    rw [if_pos rfl]
    simp only [Except.ok.injEq]
    omega

/-- Witness for C7 with an engine whose layout overflows to three pages. -/
theorem render_pdf_request_onepage_witness :
    (convertHTMLtoPDF envOverflow "<p>x</p>").pdfRequest =
        some ⟨"A4", true, ⟨"0.5in", "0.5in", "0.5in", "0.5in"⟩, true, "1"⟩ ∧
      (envOverflow.pdfOk = true →
        1 ≤ envOverflow.layoutPages (renderClean "<p>x</p>") →
        (convertHTMLtoPDF envOverflow "<p>x</p>").result = Except.ok 1) :=
  render_pdf_request_onepage envOverflow "<p>x</p>" (by decide) rfl rfl rfl

/-- C5 counterexample: on the 3-character input backslash-backslash-`n`, the
decoder does NOT produce backslash-`n`: the escaped-newline substitution runs
first and matches at the second backslash, consuming it together with the
`n`. -/
theorem decode_double_backslash_cex :
    decodeHTMLContent "\\\\n" ≠ "\\n" := by decide

/-- C5 amended: the escaped-newline substitution, applied before the
escaped-backslash one, DOES consume the second backslash of the
double-backslash pair, so the 3-character string backslash-backslash-`n`
decodes to the 2-character string backslash-newline. -/
theorem decode_double_backslash_amended :
    decodeHTMLContent "\\\\n" = "\\\n" := by decide

/-- C6 counterexample: `decodeHTMLContent` is not idempotent.  On the input
`&amp;quot;` the first pass yields `&quot;` (a string in the image of the
decoder) and a second pass rewrites it further to a double quote. -/
theorem decode_idempotent_cex :
    decodeHTMLContent (decodeHTMLContent "&amp;quot;") ≠
      decodeHTMLContent "&amp;quot;" := by decide

/-- C6 amended: the decoder is a no-op on strings containing no backslash
and no ampersand (every substitution pattern starts with one of these two
characters); it is NOT a no-op on its whole image, since a first pass can
manufacture new entity artifacts, as the counterexample shows. -/
theorem decode_noop_amended (s : String)
    (h : ∀ c ∈ s.data, c ≠ '\\' ∧ c ≠ '&') :
    decodeHTMLContent s = s := by
  by_cases h0 : s = ""
  · rw [decodeHTMLContent, if_pos h0, h0]
  · rw [decodeHTMLContent, if_neg h0]
    have hb : '\\' ∉ s.data := fun hm => (h _ hm).1 rfl
    have ha : '&' ∉ s.data := fun hm => (h _ hm).2 rfl
    unfold decodeChain
    rw [replaceAll_no_occ '\\' _ _ _ hb, replaceAll_no_occ '\\' _ _ _ hb,
      replaceAll_no_occ '\\' _ _ _ hb, replaceAll_no_occ '\\' _ _ _ hb,
      replaceAll_no_occ '\\' _ _ _ hb, replaceAll_no_occ '\\' _ _ _ hb,
      replaceAll_no_occ '&' _ _ _ ha, replaceAll_no_occ '&' _ _ _ ha,
      replaceAll_no_occ '&' _ _ _ ha, replaceAll_no_occ '&' _ _ _ ha,
      replaceAll_no_occ '&' _ _ _ ha]

/-- Witness for the amended C6 on a backslash- and ampersand-free document. -/
theorem decode_noop_amended_witness :
    decodeHTMLContent "<html><body>Hi</body></html>" =
      "<html><body>Hi</body></html>" :=
  decode_noop_amended "<html><body>Hi</body></html>" (by decide)

theorem scanHtmlres_head (l cap : List Char) (hne : l ≠ [])
    (h : tryHtmlresAt l = some cap) : scanHtmlres l = some cap := by
  cases l with
  | nil => exact absurd rfl hne
  | cons c r => simp [scanHtmlres, h]

theorem scanHtml_head (l m : List Char) (hne : l ≠ [])
    (h : tryHtmlAt l = some m) : scanHtml l = some m := by
  cases l with
  | nil => exact absurd rfl hne
  | cons c r => simp [scanHtml, h]

/-- C2 counterexample: an input that is not JSON and carries the intact field
delimiters `"htmlres": "..."`, but no closing brace anywhere after them; the
regex (whose pattern requires `"` then `\s*}` after the captured group) does
not match, the other stages also fail, and extraction throws instead of
recovering the value. -/
theorem extract_regex_needs_brace_cex :
    occursIn "\"htmlres\": \"<p>hi</p>\"".data "x \"htmlres\": \"<p>hi</p>\" x".data = true ∧
      parseAIResponse "x \"htmlres\": \"<p>hi</p>\" x" =
        Except.error "Could not extract HTML content from AI response" := by
  exact ⟨by decide, by rfl⟩

/-- C2 amended: the regex recovery succeeds when the intact field delimiters
are followed (after the captured value's closing quote and optional
whitespace) by a closing brace `}`; under the leftmost-match side conditions
(no quote before the field, none inside the value) the captured value is
returned exactly. -/
theorem extract_regex_amended (s : String) (a w1 w2 v w3 d : List Char)
    (hs : s.data =
      a ++ (htmlresPat ++ (w1 ++ (':' :: (w2 ++ ('\x22' ::
        (v ++ ('\x22' :: (w3 ++ ('\x7d' :: d))))))))))
    (ha : '\x22' ∉ a) (hv : '\x22' ∉ v)
    (hw1 : ∀ c ∈ w1, jsWs c = true) (hw2 : ∀ c ∈ w2, jsWs c = true)
    (hw3 : ∀ c ∈ w3, jsWs c = true)
    (hjson : jsonHtmlres (cleanedResponse s.data) = none) :
    parseAIResponse s = Except.ok (Json.str (String.mk v)) := by
  have hscan : scanHtmlres s.data = some v := by
    rw [hs, scanHtmlres_append_no_quote a _ ha]
    refine scanHtmlres_head _ v (by simp [htmlresPat]) ?_
    rw [tryHtmlresAt_at_pattern w1 w2 _ hw1 hw2]
    exact lazyCap_exact v w3 d hv hw3
  unfold parseAIResponse fallbackExtract
  simp only [hjson, hscan]

/-- Witness for the amended C2: garbage before the field and no valid JSON,
but the delimiters plus closing brace are intact. -/
theorem extract_regex_amended_witness :
    parseAIResponse "oops \x7b\"htmlres\": \"<p>hi</p>\"\x7d" =
      Except.ok (Json.str "<p>hi</p>") :=
  extract_regex_amended _ "oops \x7b".data [] [' '] "<p>hi</p>".data [] []
    (by rfl) (by decide) (by decide) (by decide) (by decide) (by decide) (by rfl)

/-- C3 counterexample: on an input with two closing tags the extractor
returns the span up to the FIRST `</html>`, not the outermost span up to the
last one — the quantifier between the tags is lazy, not greedy. -/
theorem extract_direct_lazy_cex :
    parseAIResponse "<html>a</html>b</html>" =
        Except.ok (Json.str "<html>a</html>") ∧
      "<html>a</html>" ≠ "<html>a</html>b</html>" := by
  exact ⟨by rfl, by decide⟩

/-- C3 amended: when the earlier stages fail, the extractor returns the span
running from the first case-insensitive `<html` to the end of the FIRST
following case-insensitive `</html>`, verbatim in the input's original
characters. -/
theorem extract_direct_amended (s : String) (a o m c d : List Char)
    (hs : s.data = a ++ (o ++ (m ++ (c ++ d))))
    (ho : ciLeads openPat o = true) (holen : o.length = openPat.length)
    (hc : ciLeads closePat c = true) (hclen : c.length = closePat.length)
    (ha : ∀ x ∈ a, x.toLower ≠ '<') (hm : ∀ x ∈ m, x.toLower ≠ '<')
    (hjson : jsonHtmlres (cleanedResponse s.data) = none)
    (hregex : scanHtmlres s.data = none) :
    parseAIResponse s = Except.ok (Json.str (String.mk (o ++ (m ++ c)))) := by
  have hone : o ≠ [] := by
    intro h0
    rw [h0] at holen
    simp [openPat] at holen
  have hopen : ciLeads openPat (o ++ (m ++ (c ++ d))) = true :=
    ciLeads_append openPat o _ ho
  have hdrop : (o ++ (m ++ (c ++ d))).drop openPat.length = m ++ (c ++ d) := by
    rw [← holen]
    exact List.drop_left o _
  have hclose : scanClose (m ++ (c ++ d)) = some m.length := by
    have h0 : scanClose (c ++ d) = some 0 :=
      scanClose_at _ (ciLeads_append closePat c d hc)
    have h1 := scanClose_skip m (c ++ d) 0 hm h0
    rw [Nat.add_zero] at h1
    exact h1
  have htake : (o ++ (m ++ (c ++ d))).take
      (openPat.length + m.length + closePat.length) = o ++ (m ++ c) := by
    rw [← holen, ← hclen,
      show o.length + m.length + c.length = o.length + (m.length + c.length)
        from by omega,
      take_append_len o _ _, take_append_len m _ _]
    have h3 : (c ++ d).take c.length = c := by
      have h2 := take_append_len c d 0
      rw [Nat.add_zero, List.take_zero, List.append_nil] at h2
      exact h2
    rw [h3]
  have htry : tryHtmlAt (o ++ (m ++ (c ++ d))) = some (o ++ (m ++ c)) := by
    unfold tryHtmlAt
    rw [if_pos (by simp [hopen]), hdrop, hclose]
    exact congrArg some htake
  have hscan : scanHtml s.data = some (o ++ (m ++ c)) := by
    rw [hs, scanHtml_skip a _ ha]
    exact scanHtml_head _ _ (by simp [hone]) htry
  unfold parseAIResponse fallbackExtract
  simp only [hjson, hregex, hscan]

/-- Witness for the amended C3: mixed-case tags, recovered verbatim. -/
theorem extract_direct_amended_witness :
    parseAIResponse "no json here <HTML>x</Html> tail" =
      Except.ok (Json.str "<HTML>x</Html>") :=
  extract_direct_amended _ "no json here ".data "<HTML".data ">x".data
    "</Html>".data " tail".data
    (by rfl) (by decide) (by decide) (by decide) (by decide)
    (by decide) (by decide) (by rfl) (by rfl)
